import Mathlib

/-!
Verification of the path-follower control kernel of the donkey repository
(file donkeycar/templates/path_follower.py), shallowly embedded over the
real numbers.  Machine floats are modelled by exact reals; Python's float
remainder `a % m` (sign of the divisor, `a - m*floor(a/m)`) is modelled by
`pymod` below.
-/

open Real

/-- Python's float remainder `a % m`: the result takes the sign of the
divisor and equals `a - m * ⌊a / m⌋`. -/
noncomputable def pymod (a m : ℝ) : ℝ := a - m * ⌊a / m⌋

/-- State of the `CarKinematics` part: rear-axle position `(x, y)`,
wheelbase `L` (`front_rear_wheel_dist_m`) and heading `theta`. -/
structure KinState where
  x : ℝ
  y : ℝ
  L : ℝ
  theta : ℝ

/-- One call of `CarKinematics.run(dist_m, steering_angle_radians)`,
translated line for line from the source: `B = dist_m / L * tan(steer)`;
if `|B| > 0.001` the pose advances along an arc of radius
`R = L / tan(steer)` about the instantaneous center `(Xc, Yc)`, else it
advances straight along the heading; in both branches the heading becomes
`(theta + B) % (2*pi)`. -/
noncomputable def CarKinematics.run (s : KinState) (dist_m steering_angle_radians : ℝ) :
    KinState :=
  let B := dist_m / s.L * Real.tan steering_angle_radians
  if |B| > 0.001 then
    let R := s.L / Real.tan steering_angle_radians
    let B := dist_m / R
    let Xc := s.x - R * Real.sin s.theta
    let Yc := s.y + R * Real.cos s.theta
    { x := Xc + R * Real.sin (s.theta + B)
      y := Yc - R * Real.cos (s.theta + B)
      L := s.L
      theta := pymod (s.theta + B) (2 * Real.pi) }
  else
    { x := s.x + dist_m * Real.cos s.theta
      y := s.y + dist_m * Real.sin s.theta
      L := s.L
      theta := pymod (s.theta + B) (2 * Real.pi) }

/-- Repeated calls of `CarKinematics.run` at a fixed steering angle, one
call per incremental distance in the list. -/
noncomputable def CarKinematics.runSteps (s : KinState) (steer : ℝ) : List ℝ → KinState
  | [] => s
  | d :: ds => CarKinematics.runSteps (CarKinematics.run s d steer) steer ds

lemma pymod_nonneg {m : ℝ} (hm : 0 < m) (a : ℝ) : 0 ≤ pymod a m := by
  unfold pymod
  have h := Int.floor_le (a / m)
  have h2 : m * (⌊a / m⌋ : ℝ) ≤ m * (a / m) := by
    exact mul_le_mul_of_nonneg_left h (le_of_lt hm)
  rw [mul_div_cancel₀ a (ne_of_gt hm)] at h2
  linarith

lemma pymod_lt {m : ℝ} (hm : 0 < m) (a : ℝ) : pymod a m < m := by
  unfold pymod
  have h := Int.lt_floor_add_one (a / m)
  have h2 : m * (a / m) < m * ((⌊a / m⌋ : ℝ) + 1) :=
    mul_lt_mul_of_pos_left h hm
  rw [mul_div_cancel₀ a (ne_of_gt hm)] at h2
  nlinarith

lemma pymod_eq_self {a m : ℝ} (h0 : 0 ≤ a) (h1 : a < m) : pymod a m = a := by
  have hm : 0 < m := lt_of_le_of_lt h0 h1
  have hfl : ⌊a / m⌋ = 0 := by
    rw [Int.floor_eq_zero_iff]
    constructor
    · exact div_nonneg h0 (le_of_lt hm)
    · rw [div_lt_one hm]; exact h1
  unfold pymod
  rw [hfl]
  simp

lemma pymod_sub_int_mul {m : ℝ} (hm : m ≠ 0) (a : ℝ) (k : ℤ) :
    pymod (a - m * k) m = pymod a m := by
  unfold pymod
  have hdiv : (a - m * k) / m = a / m - k := by
    field_simp
  rw [hdiv, Int.floor_sub_int]
  push_cast
  ring

lemma pymod_pymod_add (a b : ℝ) :
    pymod (pymod a (2 * Real.pi) + b) (2 * Real.pi) =
      pymod (a + b) (2 * Real.pi) := by
  have h2pi : (2 : ℝ) * Real.pi ≠ 0 := ne_of_gt Real.two_pi_pos
  have : pymod a (2 * Real.pi) + b =
      (a + b) - (2 * Real.pi) * (⌊a / (2 * Real.pi)⌋ : ℤ) := by
    unfold pymod; ring
  rw [this, pymod_sub_int_mul h2pi]

lemma sin_pymod_add (a b : ℝ) :
    Real.sin (pymod a (2 * Real.pi) + b) = Real.sin (a + b) := by
  have : pymod a (2 * Real.pi) + b =
      (a + b) + (-⌊a / (2 * Real.pi)⌋ : ℤ) * (2 * Real.pi) := by
    unfold pymod; push_cast; ring
  rw [this, Real.sin_add_int_mul_two_pi]

lemma cos_pymod_add (a b : ℝ) :
    Real.cos (pymod a (2 * Real.pi) + b) = Real.cos (a + b) := by
  have : pymod a (2 * Real.pi) + b =
      (a + b) + (-⌊a / (2 * Real.pi)⌋ : ℤ) * (2 * Real.pi) := by
    unfold pymod; push_cast; ring
  rw [this, Real.cos_add_int_mul_two_pi]

lemma pymod_zero_left (m : ℝ) : pymod 0 m = 0 := by
  unfold pymod
  simp

lemma pymod_self {m : ℝ} (hm : m ≠ 0) : pymod m m = 0 := by
  unfold pymod
  rw [div_self hm]
  norm_num

lemma sin_pymod (a : ℝ) :
    Real.sin (pymod a (2 * Real.pi)) = Real.sin a := by
  have h := sin_pymod_add a 0
  simpa using h

lemma cos_pymod (a : ℝ) :
    Real.cos (pymod a (2 * Real.pi)) = Real.cos a := by
  have h := cos_pymod_add a 0
  simpa using h

lemma run_arc (x y L θ d φ : ℝ) (hB : |d / L * Real.tan φ| > 0.001) :
    CarKinematics.run ⟨x, y, L, θ⟩ d φ =
      ⟨x + L / Real.tan φ * (Real.sin (θ + d * Real.tan φ / L) - Real.sin θ),
       y - L / Real.tan φ * (Real.cos (θ + d * Real.tan φ / L) - Real.cos θ),
       L, pymod (θ + d * Real.tan φ / L) (2 * Real.pi)⟩ := by
  have hBR : d / (L / Real.tan φ) = d * Real.tan φ / L :=
    div_div_eq_mul_div d L (Real.tan φ)
  simp only [CarKinematics.run]
  rw [if_pos hB, hBR]
  simp only [KinState.mk.injEq]
  refine ⟨by ring, by ring, trivial, trivial⟩

lemma run_arc_normalized (x y L τ d φ : ℝ)
    (hB : |d / L * Real.tan φ| > 0.001) :
    CarKinematics.run ⟨x, y, L, pymod τ (2 * Real.pi)⟩ d φ =
      ⟨x + L / Real.tan φ * (Real.sin (τ + d * Real.tan φ / L) - Real.sin τ),
       y - L / Real.tan φ * (Real.cos (τ + d * Real.tan φ / L) - Real.cos τ),
       L, pymod (τ + d * Real.tan φ / L) (2 * Real.pi)⟩ := by
  rw [run_arc x y L (pymod τ (2 * Real.pi)) d φ hB]
  simp only [KinState.mk.injEq]
  refine ⟨?_, ?_, trivial, ?_⟩
  · rw [sin_pymod_add, sin_pymod]
  · rw [cos_pymod_add, cos_pymod]
  · rw [pymod_pymod_add]

lemma runSteps_arc (L φ : ℝ) :
    ∀ ds : List ℝ, (∀ d ∈ ds, |d / L * Real.tan φ| > 0.001) →
    ∀ x y τ : ℝ,
      CarKinematics.runSteps ⟨x, y, L, pymod τ (2 * Real.pi)⟩ φ ds =
        ⟨x + L / Real.tan φ *
            (Real.sin (τ + List.sum ds * Real.tan φ / L) - Real.sin τ),
         y - L / Real.tan φ *
            (Real.cos (τ + List.sum ds * Real.tan φ / L) - Real.cos τ),
         L, pymod (τ + List.sum ds * Real.tan φ / L) (2 * Real.pi)⟩ := by
  intro ds
  induction ds with
  | nil =>
      intro _ x y τ
      simp [CarKinematics.runSteps]
  | cons d ds ih =>
      intro harc x y τ
      have hd : |d / L * Real.tan φ| > 0.001 := harc d (by simp)
      have hds : ∀ e ∈ ds, |e / L * Real.tan φ| > 0.001 :=
        fun e he => harc e (by simp [he])
      have harg : τ + List.sum (d :: ds) * Real.tan φ / L =
          τ + d * Real.tan φ / L + List.sum ds * Real.tan φ / L := by
        simp only [List.sum_cons]
        ring
      show CarKinematics.runSteps
        (CarKinematics.run ⟨x, y, L, pymod τ (2 * Real.pi)⟩ d φ) φ ds = _
      rw [run_arc_normalized x y L τ d φ hd, ih hds, harg]
      simp only [KinState.mk.injEq]
      refine ⟨by ring, by ring, trivial, trivial⟩

lemma run_zero_steer (s : KinState) (d : ℝ) :
    CarKinematics.run s d 0 =
      ⟨s.x + d * Real.cos s.theta, s.y + d * Real.sin s.theta, s.L,
        pymod s.theta (2 * Real.pi)⟩ := by
  simp only [CarKinematics.run, Real.tan_zero, mul_zero, abs_zero]
  rw [if_neg (by norm_num)]
  simp

/-- Claim C1: with wheelbase `L > 0`, start pose `(0,0,0)` and a constant
steering angle `φ ≠ 0` at which every step takes the arc branch
(`|B| > 0.001`), once the incremental distances sum to the full
circumference `2π·L/tan(φ)` the pose returns exactly to the start pose and
the normalized heading equals the start heading (the true heading having
advanced by `2π`).  In this exact-real embedding the float tolerance is
exact equality. -/
theorem carKinematics_full_circle (L φ : ℝ) (ds : List ℝ) (hL : 0 < L)
    (hphi : φ ≠ 0)
    (harc : ∀ d ∈ ds, |d / L * Real.tan φ| > 0.001)
    (hsum : List.sum ds = 2 * Real.pi * L / Real.tan φ) :
    CarKinematics.runSteps ⟨0, 0, L, 0⟩ φ ds = ⟨0, 0, L, 0⟩ := by
  by_cases ht : Real.tan φ = 0
  · cases ds with
    | nil => simp [CarKinematics.runSteps]
    | cons d ds =>
        exfalso
        have h := harc d (by simp)
        rw [ht] at h
        simp at h
        linarith
  · have key := runSteps_arc L φ ds harc 0 0 0
    rw [pymod_zero_left] at key
    rw [key]
    have hS : List.sum ds * Real.tan φ / L = 2 * Real.pi := by
      rw [hsum]
      field_simp
    rw [hS]
    simp only [zero_add, Real.sin_two_pi, Real.cos_two_pi, Real.sin_zero,
      Real.cos_zero, sub_self, mul_zero, add_zero, sub_zero, KinState.mk.injEq]
    refine ⟨trivial, by norm_num, trivial,
      pymod_self (ne_of_gt Real.two_pi_pos)⟩

/-- Concrete instance of the full-circle property: `L = 1`, `φ = π/4`
(so `tan φ = 1` and the circumference is `2π`), one step of length `2π`. -/
theorem carKinematics_full_circle_witness :
    CarKinematics.runSteps ⟨0, 0, 1, 0⟩ (Real.pi / 4) [2 * Real.pi] =
      ⟨0, 0, 1, 0⟩ :=
  carKinematics_full_circle 1 (Real.pi / 4) [2 * Real.pi]
    (by norm_num)
    (by positivity)
    (by
      intro d hd
      simp only [List.mem_singleton] at hd
      subst hd
      rw [Real.tan_pi_div_four]
      have h3 : (3:ℝ) < Real.pi := Real.pi_gt_three
      rw [abs_of_pos (by nlinarith)]
      nlinarith)
    (by simp [Real.tan_pi_div_four])

/-- Claim C2: a call of `CarKinematics.run` with `steering_angle_radians = 0`
has `B = dist_m / L * tan 0 = 0` exactly, leaves the (normalized) heading
unchanged, and moves the position by exactly `dist_m` along the prior
heading; in particular with `L = 0.017`, start pose `(0,0,0)` and
`dist_m = 0.1` the pose becomes `(0.1, 0, 0)`. -/
theorem carKinematics_zero_steering (s : KinState) (d : ℝ)
    (h0 : 0 ≤ s.theta) (h1 : s.theta < 2 * Real.pi) :
    d / s.L * Real.tan 0 = 0 ∧
    (CarKinematics.run s d 0).theta = s.theta ∧
    (CarKinematics.run s d 0).x = s.x + d * Real.cos s.theta ∧
    (CarKinematics.run s d 0).y = s.y + d * Real.sin s.theta ∧
    (CarKinematics.run s d 0).L = s.L ∧
    CarKinematics.run ⟨0, 0, 0.017, 0⟩ 0.1 0 = ⟨0.1, 0, 0.017, 0⟩ := by
  refine ⟨by rw [Real.tan_zero]; ring, ?_, ?_, ?_, ?_, ?_⟩
  · rw [run_zero_steer]
    exact pymod_eq_self h0 h1
  · rw [run_zero_steer]
  · rw [run_zero_steer]
  · rw [run_zero_steer]
  · rw [run_zero_steer]
    simp [pymod_zero_left]

/-- Concrete instance of the zero-steering property at the state
`(x, y, L, θ) = (1, 2, 5, 1)` with `dist_m = 3`. -/
theorem carKinematics_zero_steering_witness :
    (CarKinematics.run ⟨1, 2, 5, 1⟩ 3 0).theta = 1 ∧
    CarKinematics.run ⟨0, 0, 0.017, 0⟩ 0.1 0 = ⟨0.1, 0, 0.017, 0⟩ := by
  have h := carKinematics_zero_steering ⟨1, 2, 5, 1⟩ 3 (by norm_num)
    (by show (1:ℝ) < 2 * Real.pi; nlinarith [Real.pi_gt_three])
  exact ⟨h.2.1, h.2.2.2.2.2⟩

/-- Claim C3: the stored heading stays normalized: if `theta ∈ [0, 2π)`
before a call of `CarKinematics.run` then it is in `[0, 2π)` after the
call, for any incremental distance and steering angle, in both the arc
branch and the near-straight branch. -/
theorem carKinematics_theta_normalized (s : KinState) (d φ : ℝ)
    (h0 : 0 ≤ s.theta) (h1 : s.theta < 2 * Real.pi) :
    0 ≤ (CarKinematics.run s d φ).theta ∧
      (CarKinematics.run s d φ).theta < 2 * Real.pi := by
  simp only [CarKinematics.run]
  by_cases h : |d / s.L * Real.tan φ| > 0.001
  · rw [if_pos h]
    exact ⟨pymod_nonneg Real.two_pi_pos _, pymod_lt Real.two_pi_pos _⟩
  · rw [if_neg h]
    exact ⟨pymod_nonneg Real.two_pi_pos _, pymod_lt Real.two_pi_pos _⟩

/-- Concrete instance of the heading-normalization invariant at the state
`(0, 0, 1, 1)` with `dist_m = 1` and steering angle `0`. -/
theorem carKinematics_theta_normalized_witness :
    0 ≤ (CarKinematics.run ⟨0, 0, 1, 1⟩ 1 0).theta ∧
      (CarKinematics.run ⟨0, 0, 1, 1⟩ 1 0).theta < 2 * Real.pi :=
  carKinematics_theta_normalized ⟨0, 0, 1, 1⟩ 1 0 (by norm_num)
    (by show (1:ℝ) < 2 * Real.pi; nlinarith [Real.pi_gt_three])

/-- The `DriveMode` part's `run(mode, user_angle, user_throttle,
pilot_angle, pilot_throttle)`: mode `"user"` forwards the user commands,
`"local_angle"` pairs the pilot angle with the user throttle, and any
other mode (in particular `"local"`) forwards both pilot commands.
Commands are generic in the value type, as the source forwards them
unchanged. -/
def DriveMode.run {α β : Type} (mode : String)
    (user_angle : α) (user_throttle : β)
    (pilot_angle : α) (pilot_throttle : β) : α × β :=
  if mode = "user" then (user_angle, user_throttle)
  else if mode = "local_angle" then (pilot_angle, user_throttle)
  else (pilot_angle, pilot_throttle)

/-- Claim C5: for all command values, `DriveMode.run` returns
`(ua, ut)` in mode `"user"` (pilot values ignored), `(pa, ut)` in mode
`"local_angle"`, and `(pa, pt)` in mode `"local"`; being a pure total Lean
function it is deterministic, total over the three mode values, and has no
side effects. -/
theorem driveMode_arbitration (ua ut pa pt : ℝ) :
    DriveMode.run "user" ua ut pa pt = (ua, ut) ∧
    DriveMode.run "local_angle" ua ut pa pt = (pa, ut) ∧
    DriveMode.run "local" ua ut pa pt = (pa, pt) := by
  refine ⟨?_, ?_, ?_⟩ <;> simp [DriveMode.run]

/-- The `UserCondition` part's `run(mode)`: true exactly when the mode
string is `"user"`. -/
def UserCondition.run (mode : String) : Bool :=
  if mode = "user" then true else false

/-- The `PilotCondition` part's `run(mode)`: false exactly when the mode
string is `"user"`. -/
def PilotCondition.run (mode : String) : Bool :=
  if mode = "user" then false else true

/-- Claim C10: for every mode string (not only the three enum members) the
two enable gates are exact complements: `UserCondition.run` is true iff
the mode equals `"user"`, `PilotCondition.run` is true iff it does not,
so exactly one of the `run_user` and `run_pilot` gates is set each tick. -/
theorem conditions_complementary (mode : String) :
    (UserCondition.run mode = true ↔ mode = "user") ∧
    (PilotCondition.run mode = true ↔ mode ≠ "user") ∧
    UserCondition.run mode = !PilotCondition.run mode := by
  by_cases h : mode = "user" <;>
    simp [UserCondition.run, PilotCondition.run, h]

/-- Modelled from the spec: the `PIDController` record lives in
`donkeycar/parts/transform.py`, which is not part of this repository
snapshot; spec section 3 gives its state as gains `Kp, Ki, Kd`, the
accumulated integral and the previous error. -/
structure PIDState where
  Kp : ℝ
  Ki : ℝ
  Kd : ℝ
  integral : ℝ
  prev_error : ℝ

/-- The `dec_pid_d` button trigger from the source: `pid.Kd -= 0.5`. -/
def dec_pid_d (s : PIDState) : PIDState := { s with Kd := s.Kd - 0.5 }

/-- The `inc_pid_d` button trigger from the source: `pid.Kd += 0.5`. -/
def inc_pid_d (s : PIDState) : PIDState := { s with Kd := s.Kd + 0.5 }

/-- Claim C8: each derivative-gain adjustment event changes only `Kd`, by
exactly `+0.5` for `inc_pid_d` and `-0.5` for `dec_pid_d`; `Kp`, `Ki`,
the accumulated integral and the previous error are untouched. -/
theorem pid_gain_adjustment (s : PIDState) :
    (inc_pid_d s).Kd = s.Kd + 0.5 ∧
    (dec_pid_d s).Kd = s.Kd - 0.5 ∧
    (inc_pid_d s).Kp = s.Kp ∧ (inc_pid_d s).Ki = s.Ki ∧
    (inc_pid_d s).integral = s.integral ∧
    (inc_pid_d s).prev_error = s.prev_error ∧
    (dec_pid_d s).Kp = s.Kp ∧ (dec_pid_d s).Ki = s.Ki ∧
    (dec_pid_d s).integral = s.integral ∧
    (dec_pid_d s).prev_error = s.prev_error := by
  refine ⟨rfl, rfl, rfl, rfl, rfl, rfl, rfl, rfl, rfl, rfl⟩

/-- Mutable fields of `OdomRemoteAdapter` that the protocol touches:
`frame` counter (starts at 0), `odom_vel_ms` (starts at 0.0, written by
`run_threaded`), and the cached `pos` (starts at `(0, 0)`, written when a
reply is parsed). -/
structure OdomState where
  frame : ℕ
  odom_vel_ms : ℝ
  pos : ℝ × ℝ

/-- The telemetry request built by `OdomRemoteAdapter.update`:
`{"wheel_id": 0, "frame": frame, "vel_x": 0.0, "vel_y": 0.0,
"vel_z": odom_vel_ms}`. -/
structure Packet where
  wheel_id : ℕ
  frame : ℕ
  vel_x : ℝ
  vel_y : ℝ
  vel_z : ℝ

/-- The adapter's initial state set in `__init__`: `frame = 0`,
`odom_vel_ms = 0.0`, `pos = (0, 0)`. -/
def initOdom : OdomState := ⟨0, 0, (0, 0)⟩

/-- `OdomRemoteAdapter.run_threaded(odom_vel_ms)`: store the latest
forward velocity and return the cached position pair. -/
def OdomRemoteAdapter.run_threaded (s : OdomState) (odom_vel_ms : ℝ) :
    OdomState × (ℝ × ℝ) :=
  ({ s with odom_vel_ms := odom_vel_ms }, (s.pos.1, s.pos.2))

/-- An observable event of the adapter: either a tick-loop call of
`run_threaded` with a forward velocity, or one iteration of the `update`
protocol loop whose blocking receive yields the reply `(x, y, z)`. -/
inductive OdomEvent where
  | tick (vel : ℝ)
  | exchange (reply : ℝ × ℝ × ℝ)

/-- Effect of one event on the adapter state, together with the telemetry
request sent during an `exchange` iteration: the loop increments `frame`,
builds the request from the incremented counter and the current
`odom_vel_ms`, and after the reply caches `(x, z)`, discarding `y`. -/
def OdomRemoteAdapter.stepEvent (s : OdomState) :
    OdomEvent → OdomState × Option Packet
  | OdomEvent.tick v => ((OdomRemoteAdapter.run_threaded s v).1, none)
  | OdomEvent.exchange r =>
      ({ s with frame := s.frame + 1, pos := (r.1, r.2.2) },
        some ⟨0, s.frame + 1, 0, 0, s.odom_vel_ms⟩)

/-- Run the adapter over a whole event trace, collecting the telemetry
requests it sends in order. -/
def OdomRemoteAdapter.runTrace (s : OdomState) :
    List OdomEvent → OdomState × List Packet
  | [] => (s, [])
  | e :: es =>
      let step := OdomRemoteAdapter.stepEvent s e
      let rest := OdomRemoteAdapter.runTrace step.1 es
      (rest.1, step.2.toList ++ rest.2)

/-- The list `[a, a+1, ..., a+n-1]` of `n` consecutive counters. -/
def natRangeFrom (a n : ℕ) : List ℕ :=
  match n with
  | 0 => []
  | n + 1 => a :: natRangeFrom (a + 1) n

/-- The forward velocity the adapter would report in each request of a
trace: the most recent `tick` value before the request, or the initial
velocity `v` if no `tick` precedes it. -/
def expectedVels (v : ℝ) : List OdomEvent → List ℝ
  | [] => []
  | OdomEvent.tick w :: es => expectedVels w es
  | OdomEvent.exchange _ :: es => v :: expectedVels v es

/-- The cached position after a trace, per the protocol description:
starts at `p`, and each parsed reply `(x, y, z)` overwrites it with
`(x, z)`. -/
def lastPose (p : ℝ × ℝ) : List OdomEvent → ℝ × ℝ
  | [] => p
  | OdomEvent.tick _ :: es => lastPose p es
  | OdomEvent.exchange r :: es => lastPose (r.1, r.2.2) es

lemma runTrace_invariants (evs : List OdomEvent) : ∀ s : OdomState,
    (OdomRemoteAdapter.runTrace s evs).2.map Packet.frame =
      natRangeFrom (s.frame + 1) (OdomRemoteAdapter.runTrace s evs).2.length ∧
    (OdomRemoteAdapter.runTrace s evs).2.map Packet.vel_z =
      expectedVels s.odom_vel_ms evs ∧
    (OdomRemoteAdapter.runTrace s evs).1.frame =
      s.frame + (OdomRemoteAdapter.runTrace s evs).2.length ∧
    (OdomRemoteAdapter.runTrace s evs).1.pos = lastPose s.pos evs := by
  induction evs with
  | nil =>
      intro s
      simp [OdomRemoteAdapter.runTrace, natRangeFrom, expectedVels, lastPose]
  | cons e es ih =>
      intro s
      cases e with
      | tick v =>
          have h := ih { s with odom_vel_ms := v }
          simpa [OdomRemoteAdapter.runTrace, OdomRemoteAdapter.stepEvent,
            OdomRemoteAdapter.run_threaded, expectedVels, lastPose] using h
      | exchange r =>
          have h := ih { s with frame := s.frame + 1, pos := (r.1, r.2.2) }
          simp only [OdomRemoteAdapter.runTrace, OdomRemoteAdapter.stepEvent,
            Option.toList_some, List.singleton_append, List.map_cons,
            List.length_cons, expectedVels, lastPose] at h ⊢
          refine ⟨?_, ?_, ?_, h.2.2.2⟩
          · rw [natRangeFrom, h.1]
          · rw [h.2.1]
          · rw [h.2.2.1]; omega

lemma lastPose_no_exchange (evs : List OdomEvent)
    (h : ∀ r, OdomEvent.exchange r ∉ evs) :
    ∀ p : ℝ × ℝ, lastPose p evs = p := by
  induction evs with
  | nil => intro p; rfl
  | cons e es ih =>
      intro p
      cases e with
      | tick v =>
          have h' : ∀ r, OdomEvent.exchange r ∉ es := by
            intro r hr
            exact h r (List.mem_cons_of_mem _ hr)
          simpa [lastPose] using ih h' p
      | exchange r =>
          exact absurd (List.mem_cons_self _ _) (h r)

lemma lastPose_append (evs1 evs2 : List OdomEvent) :
    ∀ p : ℝ × ℝ, lastPose p (evs1 ++ evs2) =
      lastPose (lastPose p evs1) evs2 := by
  induction evs1 with
  | nil => intro p; rfl
  | cons e es ih =>
      intro p
      cases e with
      | tick v => simpa [lastPose] using ih p
      | exchange r => simpa [lastPose] using ih (r.1, r.2.2)

/-- Claim C6: over any interleaving of `run_threaded` calls and protocol
iterations, the frame counters embedded in the adapter's requests are
exactly `1, 2, 3, ...` (start at 1, increase by exactly 1, never reset),
and each request's `vel_z` equals the most recent forward velocity passed
to `run_threaded` (the initial `0.0` if none was passed yet). -/
theorem odom_frame_velz (evs : List OdomEvent) :
    (OdomRemoteAdapter.runTrace initOdom evs).2.map Packet.frame =
      natRangeFrom 1 (OdomRemoteAdapter.runTrace initOdom evs).2.length ∧
    (OdomRemoteAdapter.runTrace initOdom evs).2.map Packet.vel_z =
      expectedVels 0 evs := by
  have h := runTrace_invariants evs initOdom
  exact ⟨h.1, h.2.1⟩

/-- Claim C7: `run_threaded` returns the most recently cached `(x, z)`
pair without blocking: before any reply has been received it returns the
initial cached `(0, 0)`, and after replies are parsed it returns the last
reply's `x` and `z` components, the vertical `y` axis discarded. -/
theorem odom_latest_pose (evs : List OdomEvent) (v : ℝ) :
    (OdomRemoteAdapter.run_threaded
        (OdomRemoteAdapter.runTrace initOdom evs).1 v).2 =
      lastPose (0, 0) evs ∧
    ((∀ r, OdomEvent.exchange r ∉ evs) →
      (OdomRemoteAdapter.run_threaded
          (OdomRemoteAdapter.runTrace initOdom evs).1 v).2 = (0, 0)) ∧
    (∀ (evs2 : List OdomEvent) (r : ℝ × ℝ × ℝ),
      (∀ q, OdomEvent.exchange q ∉ evs2) →
      (OdomRemoteAdapter.run_threaded
          (OdomRemoteAdapter.runTrace initOdom
            (evs ++ OdomEvent.exchange r :: evs2)).1 v).2 = (r.1, r.2.2)) := by
  have hbase : ∀ es : List OdomEvent,
      (OdomRemoteAdapter.run_threaded
          (OdomRemoteAdapter.runTrace initOdom es).1 v).2 =
        lastPose (0, 0) es := by
    intro es
    exact (runTrace_invariants es initOdom).2.2.2
  refine ⟨hbase evs, ?_, ?_⟩
  · intro hno
    rw [hbase evs, lastPose_no_exchange evs hno]
  · intro evs2 r hno
    rw [hbase (evs ++ OdomEvent.exchange r :: evs2), lastPose_append]
    show lastPose (lastPose (r.1, r.2.2) evs2) [] = _
    rw [lastPose_no_exchange evs2 hno]
    rfl

/-- Concrete instance of the cached-pose property: with no reply yet the
read returns `(0, 0)`; after the reply `(2, 3, 4)` it returns `(2, 4)`. -/
theorem odom_latest_pose_witness :
    (OdomRemoteAdapter.run_threaded
        (OdomRemoteAdapter.runTrace initOdom []).1 5).2 = (0, 0) ∧
    (OdomRemoteAdapter.run_threaded
        (OdomRemoteAdapter.runTrace initOdom
          ([OdomEvent.tick 1] ++ OdomEvent.exchange (2, 3, 4) :: [])).1 5).2 =
      (2, 4) :=
  ⟨(odom_latest_pose [] 5).2.1 (fun r h => absurd h (List.not_mem_nil _)),
   (odom_latest_pose [OdomEvent.tick 1] 5).2.2 [] (2, 3, 4)
     (fun q h => absurd h (List.not_mem_nil _))⟩

/-- Modelled from the spec: the recognized logging levels are the
upper-case integer level attributes of Python's standard `logging` module,
which is outside this repository; `getattr(logging, name)` yields an
integer exactly for these names. -/
def loggingLevels : List (String × ℕ) :=
  [("CRITICAL", 50), ("FATAL", 50), ("ERROR", 40), ("WARNING", 30),
   ("WARN", 30), ("INFO", 20), ("DEBUG", 10), ("NOTSET", 0)]

/-- The `str.upper()` method, written over the character list so that it
evaluates on concrete strings. -/
def pyUpper (s : String) : String := String.mk (s.data.map Char.toUpper)

/-- `getattr(logging, log_level.upper(), None)` restricted to the integer
level attributes: upper-case the supplied name and look it up. -/
def getLogLevel (s : String) : Option ℕ :=
  List.lookup (pyUpper s) loggingLevels

/-- The `__main__` block of the script: take the `--log` flag (defaulting
to `"INFO"` when absent or falsy), resolve it to a numeric level, raise
`ValueError` (modelled as `Except.error`) if it is not an integer, and
otherwise enter the drive loop (modelled as `Except.ok`). -/
def mainDrive (logArg : Option String) : Except String Unit :=
  let log_level :=
    match logArg with
    | none => "INFO"
    | some s => if s = "" then "INFO" else s
  match getLogLevel log_level with
  | none => Except.error ("Invalid log level: " ++ log_level)
  | some _ => Except.ok ()

lemma lookup_eq_none_of_not_mem (k : String) :
    ∀ l : List (String × ℕ), k ∉ l.map Prod.fst → List.lookup k l = none := by
  intro l
  induction l with
  | nil => intro _; rfl
  | cons hd tl ih =>
      intro h
      simp only [List.map_cons, List.mem_cons] at h
      push_neg at h
      have hbeq : (k == hd.1) = false := beq_eq_false_iff_ne.mpr h.1
      cases hd with
      | mk a b => simp only [List.lookup] at hbeq ⊢; rw [hbeq]; exact ih h.2

lemma lookup_exists_of_mem (k : String) :
    ∀ l : List (String × ℕ), k ∈ l.map Prod.fst →
      ∃ n, List.lookup k l = some n := by
  intro l
  induction l with
  | nil => intro h; exact absurd h (List.not_mem_nil _)
  | cons hd tl ih =>
      intro h
      cases hd with
      | mk a b =>
          by_cases hk : k = a
          · refine ⟨b, ?_⟩
            simp only [List.lookup, hk]
            rw [beq_self_eq_true]
          · have hbeq : (k == a) = false := beq_eq_false_iff_ne.mpr hk
            simp only [List.map_cons, List.mem_cons] at h
            rcases h with h | h
            · exact absurd h hk
            · obtain ⟨n, hn⟩ := ih h
              refine ⟨n, ?_⟩
              simp only [List.lookup]
              rw [hbeq]
              exact hn

/-- Claim C9: a `--log` value that does not name a recognized logging
level after upper-casing makes the program fail with `ValueError` before
the drive loop is entered, while a recognized level starts the drive
loop. -/
theorem main_log_level_check (s : String) (hne : s ≠ "") :
    (pyUpper s ∉ loggingLevels.map Prod.fst →
      mainDrive (some s) = Except.error ("Invalid log level: " ++ s)) ∧
    (pyUpper s ∈ loggingLevels.map Prod.fst →
      mainDrive (some s) = Except.ok ()) := by
  constructor
  · intro hnot
    simp only [mainDrive, if_neg hne]
    rw [show getLogLevel s = none from
      lookup_eq_none_of_not_mem (pyUpper s) loggingLevels hnot]
  · intro hmem
    obtain ⟨n, hn⟩ := lookup_exists_of_mem (pyUpper s) loggingLevels hmem
    simp only [mainDrive, if_neg hne]
    rw [show getLogLevel s = some n from hn]

/-- Concrete instances of the log-level gate: `--log=bogus` fails fast,
`--log=info` enters the drive loop. -/
theorem main_log_level_check_witness :
    mainDrive (some "bogus") = Except.error ("Invalid log level: " ++ "bogus") ∧
    mainDrive (some "info") = Except.ok () :=
  ⟨(main_log_level_check "bogus" (by decide)).1 (by decide),
   (main_log_level_check "info" (by decide)).2 (by decide)⟩
